import Mathlib

/-!
# Verification of the py-shell-alias repository

Shallow embedding of the alias-manager core found in `src/alias.py` and
`src/aliasdb.py` (the two files define the same `Alias` record, `escape`,
`get_sh_alias_command`, `aliases_to_tuplelist`, `dict_to_alias` and
`dicts_to_aliases` helpers; `aliasdb.py` additionally has a YAML backend and
a `remove_alias` operation).

Modelling conventions:

* Python strings are Lean `String`s; a single-character `str.replace` is a
  character-wise substitution (`pyReplace`).
* A backing stream is modelled by its parse outcome (`Content`): completely
  empty text, non-empty text that the structured-data parser rejects, or text
  that parses to a value `v` of the dynamic value type `PyVal` (null, string,
  or string-keyed mapping).  `json.load` raises on empty input while
  `yaml.load` returns `None` on empty input; both raise on malformed input.
  `json.dump` / `yaml.dump` always emit text that parses back to the dumped
  value, so at this level of abstraction a dump produces `Content.parsed v`
  (the `sort_keys` / indentation options of the dumps only affect text layout,
  which is below this abstraction).
* Python exceptions are the `PyErr` error type of an `Except`;
  `PyErr.keyError` is the `KeyError` that the spec calls `NotFoundError`,
  `PyErr.decodeError` is `json.JSONDecodeError` / `yaml.YAMLError`.
* Values stored under `command` / `category` outside the documented on-disk
  shape (required string, nullable string) are modelled as decode failures.
-/

/-- The double-quote character `"`. -/
def dquoteC : Char := Char.ofNat 34

/-- The single-quote character. -/
def squoteC : Char := Char.ofNat 39

/-- The backslash character. -/
def bslashC : Char := Char.ofNat 92

namespace AliasDb

/-- The `Alias` record of `aliasdb.py` (identical in `alias.py`, where the
name field is called `alias`): a binding of a name to a command with an
optional category. -/
structure Alias where
  alias_name : String
  command : String
  category : Option String
deriving DecidableEq, Repr

/-- `Alias.__init__`: stores the three fields, replacing an empty-string
category by `None`. -/
def mkAlias (alias_name command : String) (category : Option String) : Alias :=
  { alias_name := alias_name
    command := command
    category := if category = some "" then none else category }

/-- The values an `Alias` may be compared against in `Alias.__eq__`:
`None`, another `Alias`, or any value of a different type. -/
inductive PyObj where
  | none
  | alias (a : Alias)
  | other
deriving DecidableEq, Repr

/-- The value returned by the comparison methods: Python `__eq__` here
returns either a `bool` or the `int` `-1`. -/
inductive EqRes where
  | bool (b : Bool)
  | int (n : Int)
deriving DecidableEq, Repr

/-- Python truthiness of an `EqRes`: a bool is itself, an int is truthy
iff non-zero. -/
def EqRes.truthy : EqRes → Bool
  | .bool b => b
  | .int n => n != 0

/-- `Alias.__eq__`: `-1` for `None`, `-1` for a non-`Alias` value, and
field-wise comparison for another `Alias`. -/
def Alias.eqPy (self : Alias) : PyObj → EqRes
  | .none => .int (-1)
  | .other => .int (-1)
  | .alias o =>
      .bool (self.alias_name = o.alias_name ∧ self.command = o.command ∧
        self.category = o.category : Bool)

/-- `Alias.__ne__`: `not self == o` — Python `not` of the truthiness of
the `__eq__` result, always a `bool`. -/
def Alias.nePy (self : Alias) (o : PyObj) : EqRes :=
  .bool (!(self.eqPy o).truthy)

/-- Python `str.replace` for a single-character needle: every occurrence of
`c` in `s` is replaced by the string `r`, character-wise. -/
def pyReplace (s : String) (c : Char) (r : String) : String :=
  ⟨s.data.flatMap (fun ch => if ch = c then r.data else [ch])⟩

/-- `escape` (`aliasdb.py` lines 61-67): first replace each double quote by
backslash-double-quote, then each single quote by backslash-single-quote. -/
def escape (s : String) : String :=
  pyReplace (pyReplace s dquoteC ⟨[bslashC, dquoteC]⟩) squoteC ⟨[bslashC, squoteC]⟩

/-- `get_sh_alias_command`: the line `alias <name>="<escaped command>"`
followed by a newline, via the format string `alias %s=\"%s\"\n`. -/
def get_sh_alias_command (alias_name command : String) : String :=
  "alias " ++ alias_name ++ "=" ++ ⟨[dquoteC]⟩ ++ escape command
    ++ ⟨[dquoteC, Char.ofNat 10]⟩

/-- The escaping rule exactly as the spec words it: a single character-wise
pass over the command, sending a double quote to backslash-double-quote, a
single quote to backslash-single-quote, and any other character to itself.
(Spec-side definition, to be compared with `escape` from the source.) -/
def escapeSpec (s : String) : String :=
  ⟨s.data.flatMap (fun ch =>
    if ch = dquoteC then [bslashC, dquoteC]
    else if ch = squoteC then [bslashC, squoteC]
    else [ch])⟩

/-- The dynamic values relevant to the persisted shape: `null`, strings, and
string-keyed mappings (represented as association lists; mappings produced by
the parsers and by the dumps have pairwise-distinct keys). -/
inductive PyVal where
  | pnone
  | pstr (s : String)
  | pdict (entries : List (String × PyVal))

/-- Python exceptions arising in the embedded code.  `keyError` is the
`KeyError` the spec calls `NotFoundError`; `decodeError` covers
`json.JSONDecodeError` and `yaml.YAMLError`; `attributeError` / `typeError`
mark operations on a value of the wrong type. -/
inductive PyErr where
  | decodeError
  | keyError
  | attributeError
  | typeError
deriving DecidableEq, Repr

/-- A backing stream, abstracted to its parse outcome: empty text, non-empty
unparsable text, or text parsing to the value `v` of the backend's format. -/
inductive Content where
  | empty
  | malformed
  | parsed (v : PyVal)

/-- Dictionary lookup on an association list (Python `d[k]` / `d.get(k)`). -/
def lookupK (k : String) : List (String × α) → Option α
  | [] => none
  | (k₁, v) :: rest => if k₁ = k then some v else lookupK k rest

/-- `json.load`: raises `JSONDecodeError` on empty as well as on malformed
input, otherwise returns the parsed value. -/
def jsonLoad : Content → Except PyErr PyVal
  | .empty => .error .decodeError
  | .malformed => .error .decodeError
  | .parsed v => .ok v

/-- `yaml.load`: returns `None` on empty input, raises on malformed input,
otherwise returns the parsed value. -/
def yamlLoad : Content → Except PyErr PyVal
  | .empty => .ok .pnone
  | .malformed => .error .decodeError
  | .parsed v => .ok v

/-- `json.dump` / `yaml.dump` write text that parses back to the dumped
value; key sorting and indentation only affect the text layout, which is
below this abstraction. -/
def dumpVal (v : PyVal) : Content := .parsed v

/-- Python truthiness of a `PyVal` (`if d.get('aliases', None):`): `None`,
the empty string and the empty mapping are falsy. -/
def PyVal.truthy : PyVal → Bool
  | .pnone => false
  | .pstr s => !(s = "" : Bool)
  | .pdict entries => !entries.isEmpty

/-- The collection type: the Python dict mapping alias names to `Alias`
records, in insertion order. -/
abbrev AliasDict : Type := List (String × Alias)

/-- `dict_to_alias`: `Alias(alias, item['command'], item['category'])` — the
name is the mapping key; missing keys raise `KeyError`; values outside the
documented shape (string command, null-or-string category) are modelled as
`typeError`. -/
def dict_to_alias (alias_name : String) (item : PyVal) : Except PyErr Alias :=
  match item with
  | .pdict e =>
      match lookupK "command" e, lookupK "category" e with
      | some (.pstr c), some .pnone => .ok (mkAlias alias_name c none)
      | some (.pstr c), some (.pstr cat) => .ok (mkAlias alias_name c (some cat))
      | none, _ => .error .keyError
      | _, none => .error .keyError
      | _, _ => .error .typeError
  | _ => .error .typeError

/-- The loop body of `dicts_to_aliases` over the entries of the mapping:
`olist[item] = dict_to_alias(item, dlist[item])` for each key in order. -/
def dicts_to_aliases_entries : List (String × PyVal) → Except PyErr AliasDict
  | [] => .ok []
  | (k, item) :: rest => do
      let a ← dict_to_alias k item
      let tail ← dicts_to_aliases_entries rest
      pure ((k, a) :: tail)

/-- `dicts_to_aliases`: convert a mapping of mappings to a mapping of `Alias`
records (iterating a non-mapping raises). -/
def dicts_to_aliases : PyVal → Except PyErr AliasDict
  | .pdict entries => dicts_to_aliases_entries entries
  | _ => .error .typeError

/-- `aliases_to_dicts`: each `Alias` becomes the mapping with its `command`
and `category` fields (in that order, as in the source). -/
def aliases_to_dicts (adict : AliasDict) : List (String × PyVal) :=
  adict.map (fun p =>
    (p.1, .pdict [("command", .pstr p.2.command),
                  ("category", match p.2.category with
                               | none => .pnone
                               | some s => .pstr s)]))

namespace JSONBackend

/-- `JSONBackend.get_aliases` of `aliasdb.py`: parse the stream, returning
the empty dict on any parse failure (the bare `except`), then convert the
value under the `aliases` key (defaulting to the empty mapping).  Calling
`.get` on a non-mapping document raises `AttributeError` outside the
`try` block. -/
def get_aliases (c : Content) : Except PyErr AliasDict :=
  match jsonLoad c with
  | .error _ => .ok []
  | .ok d =>
      match d with
      | .pdict entries => dicts_to_aliases ((lookupK "aliases" entries).getD (.pdict []))
      | _ => .error .attributeError

/-- `JSONBackend.write_aliases` of `aliasdb.py`: seek to the start, dump
the mapping with the single key `aliases`, truncate — the stream now holds
exactly the dumped document. -/
def write_aliases (_c : Content) (aliases : AliasDict) : Content :=
  dumpVal (.pdict [("aliases", .pdict (aliases_to_dicts aliases))])

end JSONBackend

namespace YAMLBackend

/-- `YAMLBackend.get_aliases` of `aliasdb.py`: parse the stream (errors
propagate); a `None` document gives the empty dict; otherwise, when
`d.get('aliases', None)` is truthy the entries are converted, and in every
other case the method returns Python `None` (modelled as `Option.none`). -/
def get_aliases (c : Content) : Except PyErr (Option AliasDict) :=
  match yamlLoad c with
  | .error e => .error e
  | .ok .pnone => .ok (some [])
  | .ok (.pdict entries) =>
      match lookupK "aliases" entries with
      | some v => if v.truthy then (dicts_to_aliases v).map some else .ok none
      | none => .ok none
  | .ok (.pstr _) => .error .attributeError

/-- `YAMLBackend.write_aliases` of `aliasdb.py`: same stream overwrite as
the JSON variant, in YAML syntax. -/
def write_aliases (_c : Content) (aliases : AliasDict) : Content :=
  dumpVal (.pdict [("aliases", .pdict (aliases_to_dicts aliases))])

end YAMLBackend

namespace AliasPy

/-- `JSONBackend.get_aliases` of `alias.py`: `json.load` with
`AliasesJSONDecoder`, which returns the empty dict for empty text, raises
`JSONDecodeError` on malformed text, and otherwise replaces the value under
`aliases` by its converted form; `get_aliases` then returns that value, or
the empty dict when the key is absent.  (`'aliases' in d` on a non-mapping
document is modelled as `typeError`.) -/
def get_aliases (c : Content) : Except PyErr AliasDict :=
  match c with
  | .empty => .ok []
  | .malformed => .error .decodeError
  | .parsed v =>
      match v with
      | .pdict entries =>
          match lookupK "aliases" entries with
          | some av => dicts_to_aliases av
          | none => .ok []
      | _ => .error .typeError

end AliasPy

/-- Python `del d[k]`: `none` when the key is absent (a `KeyError`),
otherwise the dict without that key. -/
def delKey : List (String × Alias) → String → Option (List (String × Alias))
  | [], _ => none
  | (k₁, v) :: rest, k =>
      if k₁ = k then some rest else (delKey rest k).map (fun r => (k₁, v) :: r)

/-- Python `d[k] = v`: replace the value in place when the key is present,
otherwise append the new binding at the end. -/
def dictInsert : List (String × Alias) → String → Alias → List (String × Alias)
  | [], k, v => [(k, v)]
  | (k₁, v₁) :: rest, k, v =>
      if k₁ = k then (k, v) :: rest else (k₁, v₁) :: dictInsert rest k v

/-- `AliasBackend.remove_alias`, generic in the backend's `get_aliases` and
`write_aliases` (as the base-class method is): load, `del aliases[name]`,
save.  The result pairs the final stream with the exception, if any: an
exception propagates before `write_aliases` runs, so the stream is the
original one on every error path. -/
def AliasBackend.remove_alias (get : Content → Except PyErr AliasDict)
    (write : Content → AliasDict → Content) (c : Content) (alias_name : String) :
    Content × Option PyErr :=
  match get c with
  | .error e => (c, some e)
  | .ok aliases =>
      match delKey aliases alias_name with
      | none => (c, some .keyError)
      | some aliases' => (write c aliases', none)

/-- `AliasBackend.add_alias`, generic in the backend: load,
`aliases[alias.alias_name] = alias`, save. -/
def AliasBackend.add_alias (get : Content → Except PyErr AliasDict)
    (write : Content → AliasDict → Content) (c : Content) (a : Alias) :
    Content × Option PyErr :=
  match get c with
  | .error e => (c, some e)
  | .ok aliases => (write c (dictInsert aliases a.alias_name a), none)

/-- Well-formedness of an in-memory collection: every record carries the
name it is keyed under, and (being constructor-built) never has the empty
string as category.  Collections read back from a stream satisfy this by
construction. -/
def WF (adict : AliasDict) : Prop :=
  ∀ p ∈ adict, p.2.alias_name = p.1 ∧ p.2.category ≠ some ""

instance : DecidablePred WF := fun adict => by
  unfold WF
  infer_instance

/-- Python `sorted` compares `(name, command)` tuples lexicographically:
this is the (total) order it sorts by. -/
def tupleLe (a b : String × String) : Prop :=
  a.1 < b.1 ∨ (a.1 = b.1 ∧ a.2 ≤ b.2)

instance : DecidableRel tupleLe := fun a b => by
  unfold tupleLe
  infer_instance

instance : IsTotal (String × String) tupleLe where
  total a b := by
    rcases lt_trichotomy a.1 b.1 with h | h | h
    · exact Or.inl (Or.inl h)
    · rcases le_total a.2 b.2 with h2 | h2
      · exact Or.inl (Or.inr ⟨h, h2⟩)
      · exact Or.inr (Or.inr ⟨h.symm, h2⟩)
    · exact Or.inr (Or.inl h)

instance : IsTrans (String × String) tupleLe where
  trans a b c hab hbc := by
    rcases hab with h1 | ⟨h1, h1'⟩ <;> rcases hbc with h2 | ⟨h2, h2'⟩
    · exact Or.inl (h1.trans h2)
    · exact Or.inl (h2 ▸ h1)
    · exact Or.inl (h1 ▸ h2)
    · exact Or.inr ⟨h1.trans h2, h1'.trans h2'⟩

instance : IsAntisymm (String × String) tupleLe where
  antisymm a b hab hba := by
    rcases hab with h1 | ⟨h1, h1'⟩
    · rcases hba with h2 | ⟨h2, h2'⟩
      · exact absurd (h1.trans h2) (lt_irrefl _)
      · exact absurd h1 (h2 ▸ lt_irrefl _)
    · rcases hba with h2 | ⟨h2, h2'⟩
      · exact absurd h2 (h1 ▸ lt_irrefl _)
      · exact Prod.ext h1 (le_antisymm h1' h2')

/-- `aliases_to_tuplelist`: the `(name, command)` pairs of the collection,
sorted (Python `sorted`, i.e. by the tuple order). -/
def aliases_to_tuplelist (aliases : AliasDict) : List (String × String) :=
  List.insertionSort tupleLe (aliases.map (fun p => (p.1, p.2.command)))

/-- The rendering loop of `AliasDB.get_sh_script`: starting from the empty
string, append `get_sh_alias_command` for each sorted tuple.  (In the source
the collection argument is obtained from `backend.get_aliases()`; the
rendering of a loaded collection is modelled here.) -/
def get_sh_script (aliases : AliasDict) : String :=
  (aliases_to_tuplelist aliases).foldl
    (fun script p => script ++ get_sh_alias_command p.1 p.2) ""

theorem pyReplace_data (s : String) (c : Char) (r : String) :
    (pyReplace s c r).data = s.data.flatMap (fun ch => if ch = c then r.data else [ch]) :=
  rfl

theorem escape_eq_escapeSpec (s : String) : escape s = escapeSpec s := by
  have h : (escape s).data = (escapeSpec s).data := by
    show (pyReplace (pyReplace s dquoteC _) squoteC _).data = _
    rw [pyReplace_data, pyReplace_data, List.flatMap_assoc]
    refine List.flatMap_congr (fun ch _ => ?_)
    by_cases hd : ch = dquoteC
    · subst hd
      simp [escapeSpec, dquoteC, squoteC, bslashC]
    · by_cases hs : ch = squoteC
      · subst hs
        simp [escapeSpec, dquoteC, squoteC, bslashC]
      · simp [hd, hs, escapeSpec]
  cases hesc : escape s with
  | mk d1 =>
    cases hspec : escapeSpec s with
    | mk d2 =>
      have : d1 = d2 := by
        have h1 := congrArg String.data hesc
        have h2 := congrArg String.data hspec
        simp at h1 h2
        rw [← h1, ← h2]; exact h
      rw [this]

/-- **C1.** For every name and command, `get_sh_alias_command` returns
exactly `alias <name>="<escaped-command>"` followed by a newline, where the
escaped command replaces each double quote by backslash-double-quote and
each single quote by backslash-single-quote, leaves every other character of
the command unchanged, and no character of the name is altered. -/
theorem get_sh_alias_command_correct (alias_name command : String) :
    get_sh_alias_command alias_name command =
      "alias " ++ alias_name ++ "=" ++ ⟨[dquoteC]⟩ ++ escapeSpec command
        ++ ⟨[dquoteC, Char.ofNat 10]⟩ := by
  unfold get_sh_alias_command
  rw [escape_eq_escapeSpec]

/-- **C9.** For every `Alias` record `a`, comparing `a` with `None` (and with
any non-`Alias` value) yields the integer `-1`, which is truthy rather than
`False`; consequently `a != None` evaluates to `False`.  Equality at the
public interface is the structural comparison only between two `Alias`
records. -/
theorem alias_eqPy_none_truthy (a : Alias) :
    a.eqPy .none = .int (-1) ∧
    a.eqPy .other = .int (-1) ∧
    (a.eqPy .none).truthy = true ∧
    a.nePy .none = .bool false ∧
    (∀ b : Alias, a.eqPy (.alias b) =
      .bool (a.alias_name = b.alias_name ∧ a.command = b.command ∧
        a.category = b.category : Bool)) := by
  exact ⟨rfl, rfl, rfl, rfl, fun b => rfl⟩

/-- **C10.** Constructing an `Alias` with the empty string as category yields
a record whose category is `None`, structurally equal to the record built
from the same name and command with no category argument. -/
theorem mkAlias_empty_category (alias_name command : String) :
    (mkAlias alias_name command (some "")).category = none ∧
    mkAlias alias_name command (some "") = mkAlias alias_name command none := by
  constructor
  · simp [mkAlias]
  · simp [mkAlias]

theorem mkAlias_category_ne_empty (n c : String) (cat : Option String) :
    (mkAlias n c cat).category ≠ some "" := by
  by_cases h : cat = some "" <;> simp [mkAlias, h]

theorem dict_to_alias_roundtrip (k : String) (a : Alias)
    (hname : a.alias_name = k) (hcat : a.category ≠ some "") :
    dict_to_alias k (.pdict [("command", .pstr a.command),
      ("category", match a.category with
                   | none => PyVal.pnone
                   | some s => PyVal.pstr s)]) = .ok a := by
  cases a with
  | mk n c cat =>
    simp only at hname hcat ⊢
    subst hname
    cases cat with
    | none => simp [dict_to_alias, lookupK, mkAlias]
    | some s =>
      have hs : s ≠ "" := fun h => hcat (by rw [h])
      simp [dict_to_alias, lookupK, mkAlias, hs]

theorem dicts_to_aliases_entries_roundtrip (adict : AliasDict) (h : WF adict) :
    dicts_to_aliases_entries (aliases_to_dicts adict) = .ok adict := by
  induction adict with
  | nil => rfl
  | cons p rest ih =>
    obtain ⟨hname, hcat⟩ := h p (List.mem_cons_self p rest)
    have hrest : WF rest := fun q hq => h q (List.mem_cons_of_mem p hq)
    have hstep : aliases_to_dicts (p :: rest) =
        (p.1, PyVal.pdict [("command", PyVal.pstr p.2.command),
          ("category", match p.2.category with
                       | none => PyVal.pnone
                       | some s => PyVal.pstr s)]) :: aliases_to_dicts rest := rfl
    rw [hstep, dicts_to_aliases_entries,
      dict_to_alias_roundtrip p.1 p.2 hname hcat, ih hrest]
    rfl

/-- Saving with the JSON backend then loading from the same stream yields
exactly the saved collection. -/
theorem JSONBackend.json_get_write (c : Content) (adict : AliasDict) (h : WF adict) :
    JSONBackend.get_aliases (JSONBackend.write_aliases c adict) = .ok adict := by
  show dicts_to_aliases ((lookupK "aliases"
    [("aliases", PyVal.pdict (aliases_to_dicts adict))]).getD (.pdict [])) = .ok adict
  simp only [lookupK, if_pos rfl, Option.getD_some, dicts_to_aliases]
  exact dicts_to_aliases_entries_roundtrip adict h

/-- Saving a non-empty collection with the YAML backend then loading from
the same stream yields exactly the saved collection. -/
theorem YAMLBackend.yaml_get_write (c : Content) (adict : AliasDict) (h : WF adict)
    (hne : adict ≠ []) :
    YAMLBackend.get_aliases (YAMLBackend.write_aliases c adict) = .ok (some adict) := by
  have hlk : lookupK "aliases" [("aliases", PyVal.pdict (aliases_to_dicts adict))] =
      some (PyVal.pdict (aliases_to_dicts adict)) := by
    simp [lookupK]
  show (match lookupK "aliases" [("aliases", PyVal.pdict (aliases_to_dicts adict))] with
        | some v => if v.truthy then (dicts_to_aliases v).map some else .ok none
        | none => .ok none) = .ok (some adict)
  rw [hlk]
  have htruthy : (PyVal.pdict (aliases_to_dicts adict)).truthy = true := by
    cases adict with
    | nil => exact absurd rfl hne
    | cons p rest => rfl
  show (if (PyVal.pdict (aliases_to_dicts adict)).truthy
      then (dicts_to_aliases (PyVal.pdict (aliases_to_dicts adict))).map some
      else .ok none) = .ok (some adict)
  rw [htruthy]
  show (dicts_to_aliases (PyVal.pdict (aliases_to_dicts adict))).map some = .ok (some adict)
  rw [show dicts_to_aliases (PyVal.pdict (aliases_to_dicts adict)) =
    dicts_to_aliases_entries (aliases_to_dicts adict) from rfl]
  rw [dicts_to_aliases_entries_roundtrip adict h]
  rfl

/-- **C2 (amended).** Saving then loading on a shared stream reproduces the
collection for the JSON backend on every well-formed collection, and for the
YAML backend on every non-empty well-formed collection; for the empty
collection the YAML load returns Python `None` instead of the empty
collection (see the counterexample). -/
theorem roundtrip_amended (c : Content) (adict : AliasDict) (h : WF adict) :
    JSONBackend.get_aliases (JSONBackend.write_aliases c adict) = .ok adict ∧
    (adict ≠ [] →
      YAMLBackend.get_aliases (YAMLBackend.write_aliases c adict) = .ok (some adict)) :=
  ⟨JSONBackend.json_get_write c adict h, fun hne => YAMLBackend.yaml_get_write c adict h hne⟩

/-- **C2 (counterexample).** The empty collection does not round-trip through
the YAML backend: loading what was saved returns Python `None`, not the
empty collection. -/
theorem roundtrip_yaml_empty_counterexample :
    YAMLBackend.get_aliases (YAMLBackend.write_aliases .empty ([] : AliasDict)) =
      .ok none ∧
    YAMLBackend.get_aliases (YAMLBackend.write_aliases .empty ([] : AliasDict)) ≠
      .ok (some ([] : AliasDict)) :=
  ⟨rfl, fun h => Option.noConfusion (Except.ok.inj h)⟩

theorem roundtrip_amended_witness :
    JSONBackend.get_aliases (JSONBackend.write_aliases .empty
      [("lst", mkAlias "lst" "ls -lhar" none)]) =
      .ok [("lst", mkAlias "lst" "ls -lhar" none)] ∧
    ([("lst", mkAlias "lst" "ls -lhar" none)] ≠ ([] : AliasDict) →
      YAMLBackend.get_aliases (YAMLBackend.write_aliases .empty
        [("lst", mkAlias "lst" "ls -lhar" none)]) =
        .ok (some [("lst", mkAlias "lst" "ls -lhar" none)])) :=
  roundtrip_amended .empty [("lst", mkAlias "lst" "ls -lhar" none)] (by decide)

/-- **C3 (amended).** On non-empty unparsable content, `aliasdb.py`'s
`JSONBackend.get_aliases` swallows the decode failure (bare `except`) and
returns the empty collection, while `alias.py`'s JSON backend surfaces the
`DecodeError` to the caller. -/
theorem json_malformed_behavior :
    JSONBackend.get_aliases Content.malformed = .ok ([] : AliasDict) ∧
    AliasPy.get_aliases Content.malformed = .error .decodeError :=
  ⟨rfl, rfl⟩

/-- **C3 (counterexample).** Against the claim as stated: on unparsable
content, `aliasdb.py`'s `JSONBackend.get_aliases` returns a collection (the
empty one) and does not signal `DecodeError`. -/
theorem json_malformed_counterexample :
    JSONBackend.get_aliases Content.malformed = .ok ([] : AliasDict) ∧
    JSONBackend.get_aliases Content.malformed ≠ .error PyErr.decodeError :=
  ⟨rfl, fun h => Except.noConfusion h⟩

/-- **C7.** Loading from a completely empty stream returns the empty
collection, without signalling an error, for both the JSON backend and the
YAML backend of `aliasdb.py`. -/
theorem empty_stream_load :
    JSONBackend.get_aliases Content.empty = .ok ([] : AliasDict) ∧
    YAMLBackend.get_aliases Content.empty = .ok (some ([] : AliasDict)) :=
  ⟨rfl, rfl⟩

/-- **C8.** For every YAML document that parses to a (non-null) mapping whose
`aliases` key is absent or maps to a falsy value, `YAMLBackend.get_aliases`
returns Python `None` instead of a collection, so the load postcondition of
always producing a collection fails on these inputs. -/
theorem yaml_absent_or_falsy_gives_none (entries : List (String × PyVal))
    (h : lookupK "aliases" entries = none ∨
      ∃ v, lookupK "aliases" entries = some v ∧ v.truthy = false) :
    YAMLBackend.get_aliases (.parsed (.pdict entries)) = .ok none := by
  show (match lookupK "aliases" entries with
        | some v => if v.truthy then (dicts_to_aliases v).map some else .ok none
        | none => .ok none) = .ok none
  rcases h with h | ⟨v, hv, ht⟩
  · rw [h]
  · rw [hv]
    simp [ht]

theorem yaml_absent_or_falsy_gives_none_witness :
    YAMLBackend.get_aliases (.parsed (.pdict [])) = .ok none :=
  yaml_absent_or_falsy_gives_none [] (Or.inl rfl)

theorem delKey_eq_none_of_lookup_none (adict : AliasDict) (n : String)
    (h : lookupK n adict = none) : delKey adict n = none := by
  induction adict with
  | nil => rfl
  | cons p rest ih =>
    obtain ⟨k₁, v⟩ := p
    by_cases hk : k₁ = n
    · simp [lookupK, hk] at h
    · simp only [lookupK, if_neg hk] at h
      simp [delKey, hk, ih h]

/-- **C4.** For every backend (the method lives on the `AliasBackend` base
class), every stream state and every name absent from the loaded collection,
`remove_alias` signals `NotFoundError` (the `KeyError` of `del`) and leaves
the stream unchanged: `write_aliases` is never reached on this path. -/
theorem remove_alias_absent_not_found (get : Content → Except PyErr AliasDict)
    (write : Content → AliasDict → Content) (c : Content) (n : String)
    (adict : AliasDict) (h1 : get c = .ok adict) (h2 : lookupK n adict = none) :
    AliasBackend.remove_alias get write c n = (c, some PyErr.keyError) := by
  unfold AliasBackend.remove_alias
  rw [h1]
  show (match delKey adict n with
        | none => (c, some PyErr.keyError)
        | some adict' => (write c adict', none)) = (c, some PyErr.keyError)
  rw [delKey_eq_none_of_lookup_none adict n h2]

theorem remove_alias_absent_not_found_witness :
    AliasBackend.remove_alias JSONBackend.get_aliases JSONBackend.write_aliases
      (JSONBackend.write_aliases Content.empty [("lst", mkAlias "lst" "ls -lhar" none)])
      "missing"
    = (JSONBackend.write_aliases Content.empty [("lst", mkAlias "lst" "ls -lhar" none)],
       some PyErr.keyError) :=
  remove_alias_absent_not_found JSONBackend.get_aliases JSONBackend.write_aliases
    (JSONBackend.write_aliases Content.empty [("lst", mkAlias "lst" "ls -lhar" none)])
    "missing" [("lst", mkAlias "lst" "ls -lhar" none)]
    (JSONBackend.json_get_write Content.empty [("lst", mkAlias "lst" "ls -lhar" none)]
      (by decide))
    (by decide)

theorem dict_to_alias_ok (k : String) (item : PyVal) (a : Alias)
    (h : dict_to_alias k item = .ok a) :
    a.alias_name = k ∧ a.category ≠ some "" := by
  unfold dict_to_alias at h
  split at h
  · split at h
    all_goals first
      | exact Except.noConfusion h
      | (injection h with h; subst h; exact ⟨rfl, mkAlias_category_ne_empty _ _ _⟩)
  · exact Except.noConfusion h

theorem dicts_to_aliases_entries_WF (es : List (String × PyVal)) (adict : AliasDict)
    (h : dicts_to_aliases_entries es = .ok adict) : WF adict := by
  induction es generalizing adict with
  | nil =>
    injection h with h
    subst h
    exact fun p hp => absurd hp (List.not_mem_nil p)
  | cons q rest ih =>
    obtain ⟨k, item⟩ := q
    unfold dicts_to_aliases_entries at h
    cases hda : dict_to_alias k item with
    | error e => rw [hda] at h; exact Except.noConfusion h
    | ok a =>
      rw [hda] at h
      cases hdr : dicts_to_aliases_entries rest with
      | error e => rw [hdr] at h; exact Except.noConfusion h
      | ok tail =>
        rw [hdr] at h
        injection h with h
        subst h
        intro p hp
        rcases List.mem_cons.mp hp with rfl | hp
        · exact dict_to_alias_ok k item a hda
        · exact ih tail hdr p hp

/-- A collection loaded by the JSON backend is well-formed: each record is
keyed by its own name (the key is passed to the `Alias` constructor) and has
a normalized category. -/
theorem JSONBackend.get_aliases_ok_WF (c : Content) (adict : AliasDict)
    (h : JSONBackend.get_aliases c = .ok adict) : WF adict := by
  unfold JSONBackend.get_aliases at h
  split at h
  · injection h with h
    subst h
    exact fun p hp => absurd hp (List.not_mem_nil p)
  · split at h
    · unfold dicts_to_aliases at h
      split at h
      · exact dicts_to_aliases_entries_WF _ _ h
      · exact Except.noConfusion h
    · exact Except.noConfusion h

theorem dictInsert_WF (adict : AliasDict) (n : String) (a : Alias)
    (h : WF adict) (hn : a.alias_name = n) (ha : a.category ≠ some "") :
    WF (dictInsert adict n a) := by
  induction adict with
  | nil =>
    intro p hp
    rw [show dictInsert [] n a = [(n, a)] from rfl] at hp
    rcases List.mem_singleton.mp hp with rfl
    exact ⟨hn, ha⟩
  | cons q rest ih =>
    obtain ⟨k₁, v₁⟩ := q
    have hq := h (k₁, v₁) (List.mem_cons_self _ rest)
    have hrest : WF rest := fun p hp => h p (List.mem_cons_of_mem _ hp)
    by_cases hk : k₁ = n
    · rw [show dictInsert ((k₁, v₁) :: rest) n a = (n, a) :: rest from by
        simp [dictInsert, hk]]
      intro p hp
      rcases List.mem_cons.mp hp with rfl | hp
      · exact ⟨hn, ha⟩
      · exact hrest p hp
    · rw [show dictInsert ((k₁, v₁) :: rest) n a = (k₁, v₁) :: dictInsert rest n a from by
        simp [dictInsert, hk]]
      intro p hp
      rcases List.mem_cons.mp hp with rfl | hp
      · exact hq
      · exact ih hrest p hp

theorem dictInsert_length (adict : AliasDict) (n : String) (a : Alias)
    (h : (lookupK n adict).isSome) :
    (dictInsert adict n a).length = adict.length := by
  induction adict with
  | nil => simp [lookupK] at h
  | cons q rest ih =>
    obtain ⟨k₁, v₁⟩ := q
    by_cases hk : k₁ = n
    · simp [dictInsert, hk]
    · simp only [lookupK, if_neg hk] at h
      simp [dictInsert, hk, ih h]

theorem lookupK_dictInsert (adict : AliasDict) (n : String) (a : Alias) :
    lookupK n (dictInsert adict n a) = some a := by
  induction adict with
  | nil => simp [dictInsert, lookupK]
  | cons q rest ih =>
    obtain ⟨k₁, v₁⟩ := q
    by_cases hk : k₁ = n
    · simp [dictInsert, hk, lookupK]
    · simp [dictInsert, hk, lookupK, ih]

/-- **C6.** When the persisted collection already has a record named `n`,
adding a (constructor-built) alias named `n` replaces the stored record —
the lookup of `n` afterwards yields the new alias, hence the new command —
and the number of records is unchanged (JSON backend; `add_alias` is the
generic base-class method). -/
theorem add_alias_overwrites (c : Content) (n command : String) (cat : Option String)
    (adict : AliasDict) (h1 : JSONBackend.get_aliases c = .ok adict)
    (h2 : (lookupK n adict).isSome) :
    ∃ adict₂,
      JSONBackend.get_aliases
        (AliasBackend.add_alias JSONBackend.get_aliases JSONBackend.write_aliases c
          (mkAlias n command cat)).1 = .ok adict₂ ∧
      adict₂.length = adict.length ∧
      lookupK n adict₂ = some (mkAlias n command cat) := by
  have hWF : WF adict := JSONBackend.get_aliases_ok_WF c adict h1
  refine ⟨dictInsert adict n (mkAlias n command cat), ?_, ?_, ?_⟩
  · unfold AliasBackend.add_alias
    rw [h1]
    show JSONBackend.get_aliases (JSONBackend.write_aliases c
      (dictInsert adict n (mkAlias n command cat))) = _
    exact JSONBackend.json_get_write c _
      (dictInsert_WF adict n (mkAlias n command cat) hWF rfl
        (mkAlias_category_ne_empty n command cat))
  · exact dictInsert_length adict n _ h2
  · exact lookupK_dictInsert adict n _

theorem add_alias_overwrites_witness :
    ∃ adict₂,
      JSONBackend.get_aliases
        (AliasBackend.add_alias JSONBackend.get_aliases JSONBackend.write_aliases
          (JSONBackend.write_aliases Content.empty [("lss", mkAlias "lss" "ls -lha" none)])
          (mkAlias "lss" "ls -lhar" none)).1 = .ok adict₂ ∧
      adict₂.length = [("lss", mkAlias "lss" "ls -lha" none)].length ∧
      lookupK "lss" adict₂ = some (mkAlias "lss" "ls -lhar" none) :=
  add_alias_overwrites (JSONBackend.write_aliases Content.empty
      [("lss", mkAlias "lss" "ls -lha" none)])
    "lss" "ls -lhar" none [("lss", mkAlias "lss" "ls -lha" none)]
    (JSONBackend.json_get_write Content.empty [("lss", mkAlias "lss" "ls -lha" none)]
      (by decide))
    (by decide)

theorem string_foldl_append (s : List String) (init : String) :
    s.foldl (fun a b => a ++ b) init = init ++ String.join s := by
  induction s generalizing init with
  | nil =>
    rw [List.foldl_nil]
    exact (String.append_empty init).symm
  | cons a rest ih =>
    rw [List.foldl_cons, ih (init ++ a),
      show String.join (a :: rest) = List.foldl (fun x y => x ++ y) ("" ++ a) rest from rfl,
      ih ("" ++ a), String.empty_append, String.append_assoc]

theorem string_join_cons (a : String) (s : List String) :
    String.join (a :: s) = a ++ String.join s := by
  rw [show String.join (a :: s) = List.foldl (fun x y => x ++ y) ("" ++ a) s from rfl,
    string_foldl_append, String.empty_append]

theorem foldl_render (s : List (String × String)) (init : String) :
    s.foldl (fun script p => script ++ get_sh_alias_command p.1 p.2) init
      = init ++ String.join (s.map (fun p => get_sh_alias_command p.1 p.2)) := by
  induction s generalizing init with
  | nil =>
    rw [List.foldl_nil, List.map_nil,
      show String.join ([] : List String) = "" from rfl]
    exact (String.append_empty init).symm
  | cons p rest ih =>
    rw [List.foldl_cons, List.map_cons, ih, string_join_cons, ← String.append_assoc]

/-- **C5.** `get_sh_script` renders the collection as the concatenation of
the rendered alias lines taken in strictly ascending name order
(`aliases_to_tuplelist` is a permutation of the collection's
`(name, command)` pairs, sorted); the result is insertion-order independent
(equal on any permutation of the collection); and the empty collection
renders to the empty string. -/
theorem get_sh_script_correct (l l₂ : AliasDict) (h : (l.map Prod.fst).Nodup)
    (hperm : l.Perm l₂) :
    (aliases_to_tuplelist l).Perm (l.map (fun p => (p.1, p.2.command))) ∧
    (aliases_to_tuplelist l).Pairwise (fun a b => a.1 < b.1) ∧
    get_sh_script l =
      String.join ((aliases_to_tuplelist l).map (fun p => get_sh_alias_command p.1 p.2)) ∧
    get_sh_script l = get_sh_script l₂ ∧
    get_sh_script ([] : AliasDict) = "" := by
  have hp : (aliases_to_tuplelist l).Perm (l.map (fun p => (p.1, p.2.command))) :=
    List.perm_insertionSort tupleLe _
  refine ⟨hp, ?_, ?_, ?_, rfl⟩
  · have hsorted : List.Sorted tupleLe (aliases_to_tuplelist l) :=
      List.sorted_insertionSort tupleLe _
    have hmapfst : (l.map (fun p => (p.1, p.2.command))).map Prod.fst = l.map Prod.fst := by
      rw [List.map_map]
      rfl
    have hnodup : ((aliases_to_tuplelist l).map Prod.fst).Nodup := by
      refine (hp.map Prod.fst).nodup_iff.mpr ?_
      rw [hmapfst]
      exact h
    have hpw : (aliases_to_tuplelist l).Pairwise (fun a b => a.1 ≠ b.1) :=
      (List.pairwise_map).mp hnodup
    refine (hsorted.and hpw).imp ?_
    intro a b hab
    rcases hab.1 with h1 | ⟨h1, _⟩
    · exact h1
    · exact absurd h1 hab.2
  · unfold get_sh_script
    rw [foldl_render, String.empty_append]
  · have hs2 : aliases_to_tuplelist l = aliases_to_tuplelist l₂ := by
      apply List.eq_of_perm_of_sorted _ (List.sorted_insertionSort tupleLe _)
        (List.sorted_insertionSort tupleLe _)
      exact (List.perm_insertionSort tupleLe _).trans
        ((hperm.map _).trans (List.perm_insertionSort tupleLe _).symm)
    unfold get_sh_script
    rw [hs2]

theorem get_sh_script_correct_witness :
    (aliases_to_tuplelist [("b", mkAlias "b" "two" none), ("a", mkAlias "a" "one" none)]).Perm
      ([("b", mkAlias "b" "two" none), ("a", mkAlias "a" "one" none)].map
        (fun p => (p.1, p.2.command))) ∧
    (aliases_to_tuplelist [("b", mkAlias "b" "two" none),
      ("a", mkAlias "a" "one" none)]).Pairwise (fun a b => a.1 < b.1) ∧
    get_sh_script [("b", mkAlias "b" "two" none), ("a", mkAlias "a" "one" none)] =
      String.join ((aliases_to_tuplelist [("b", mkAlias "b" "two" none),
        ("a", mkAlias "a" "one" none)]).map (fun p => get_sh_alias_command p.1 p.2)) ∧
    get_sh_script [("b", mkAlias "b" "two" none), ("a", mkAlias "a" "one" none)] =
      get_sh_script [("a", mkAlias "a" "one" none), ("b", mkAlias "b" "two" none)] ∧
    get_sh_script ([] : AliasDict) = "" :=
  get_sh_script_correct
    [("b", mkAlias "b" "two" none), ("a", mkAlias "a" "one" none)]
    [("a", mkAlias "a" "one" none), ("b", mkAlias "b" "two" none)]
    (by decide) (by decide)

end AliasDb
